import Mathlib

/-!
# Verification of the prompt-scanner extraction-and-classification pipeline

Shallow embedding of the core of `github.com/alexferrari88/prompt-scanner`:
the heuristic classifier (`scanner/heuristics.go`, function `IsPotentialPrompt`
in its current form with the `Greedy` flag), the simplified unescape pass
(`unescapePythonString` / `unescapeJSString` from `scanner/treesitter_parser.go`),
the ancestor-walking context resolver (`determineContextAroundNode`), the
per-match loop of `ParseTreeSitterFile` (the revision that calls
`determineContextAroundNode`, i.e. the one consistent with the
`throw_literal` marker consumed by `heuristics.go`), and the file dispatch of
`processFile` (`scanner/scanner.go`).

Modelling conventions:
* Go strings are modelled as `GoStr := List Char`.  All classifier inputs in
  the claims are ASCII, so Go's byte-oriented operations coincide with the
  character-level model except for `len`, which is modelled as the UTF-8 byte
  size (`goLen`) to stay faithful on non-ASCII inputs.
* `strings.ToLower` is modelled by ASCII lowercasing (`goToLower`), which
  agrees with Go on ASCII input.
* The compiled regular expression built by `compileMatchers` from the
  content-keyword list is `(?i)(kw1|kw2|...)`; `compileMatchers` does NOT
  quote the keywords, so this is a case-insensitive *literal* alternation
  only when every keyword is free of regex metacharacters.  Its `FindString`
  is modelled by `findStringAlt`, a leftmost-first scan trying the keywords
  in order at each position — the regexp semantics of a literal alternation.
  The model therefore agrees with Go exactly on keyword lists satisfying
  `isLiteralKeyword` (which all defaults do, and which `splitAndTrim` in
  `main.go` leaves intact); the one theorem whose truth depends on the
  content matcher's semantics on arbitrary configurations carries that
  restriction as an explicit hypothesis.
* The compiled variable-keyword matcher (`(?i)\b(...)\b`, whose word-boundary
  semantics none of the claims depend on) is carried as an abstract function
  field `varKeywordFind`, and each compiled placeholder pattern (arbitrary
  user-supplied regex syntax) as an abstract function `GoStr → Option GoStr`
  returning the leftmost match if any: `MatchString` is `Option.isSome` of it
  and `FindString` is `Option.getD` with the empty string.
-/

/-- Go strings, modelled as lists of characters. -/
abbrev GoStr := List Char

/-- Embed a Lean string literal as a `GoStr`. -/
def gs (s : String) : GoStr := s.data

/-- The character `{` (written via its code point to keep literals plain). -/
def braceChar : Char := Char.ofNat 123

/-- ASCII lowercasing of one character, as Go `unicode.ToLower` acts on ASCII. -/
def lowerChar (c : Char) : Char :=
  if 'A' ≤ c ∧ c ≤ 'Z' then Char.ofNat (c.toNat + 32) else c

/-- `strings.ToLower`, restricted to its ASCII behaviour. -/
def goToLower (s : GoStr) : GoStr := s.map lowerChar

/-- Whitespace class used by Go's `\s` and (on ASCII) `unicode.IsSpace`. -/
def goIsSpace (c : Char) : Bool :=
  c = ' ' || c = '\t' || c = '\n' || c = '\x0d' || c = '\x0b' || c = '\x0c'

/-- `strings.TrimSpace` (ASCII whitespace). -/
def goTrimSpace (s : GoStr) : GoStr :=
  ((s.dropWhile goIsSpace).reverse.dropWhile goIsSpace).reverse

/-- Go `len` on a string: its UTF-8 byte size. -/
def goLen (s : GoStr) : Nat := (s.map Char.utf8Size).sum

/-- `strings.HasPrefix s p`: does `s` start with `p`? -/
def goStartsWith : GoStr → GoStr → Bool
  | _, [] => true
  | [], _ :: _ => false
  | c :: s, p :: ps => c == p && goStartsWith s ps

/-- `strings.HasSuffix s p`: does `s` end with `p`? -/
def goEndsWith (s p : GoStr) : Bool := goStartsWith s.reverse p.reverse

/-- `strings.Contains s sub`: does `sub` occur as a contiguous substring of `s`? -/
def goContainsSub : GoStr → GoStr → Bool
  | [], sub => sub.isEmpty
  | c :: rest, sub => goStartsWith (c :: rest) sub || goContainsSub rest sub

/-- `strings.ContainsAny s chars`. -/
def goContainsAny (s : GoStr) (chars : List Char) : Bool :=
  s.any (fun c => chars.contains c)

/-- `utils.CountNewlines`: number of newline characters in a string. -/
def countNewlines (s : GoStr) : Nat := s.countP (fun c => c = '\n')

/-! ## The string unescapers (`scanner/treesitter_parser.go`) -/

/-- One step of `strings.ReplaceAll s pat rep` (non-overlapping, leftmost),
    fuelled by the length of `s` so that it is structurally recursive and
    evaluates by kernel reduction. -/
def replaceAllFuel (pat rep : GoStr) : Nat → GoStr → GoStr
  | _, [] => []
  | 0, s => s
  | fuel + 1, c :: rest =>
    if goStartsWith (c :: rest) pat then
      rep ++ replaceAllFuel pat rep fuel ((c :: rest).drop pat.length)
    else
      c :: replaceAllFuel pat rep fuel rest

/-- `strings.ReplaceAll s pat rep` for non-empty `pat` (the only use sites);
    for an empty pattern it returns `s` (Go's interleaving semantics for an
    empty pattern is never exercised by the scanner). -/
def replaceAll (s pat rep : GoStr) : GoStr :=
  if pat.isEmpty then s else replaceAllFuel pat rep s.length s

/-- `unescapePythonString` from `scanner/treesitter_parser.go`: the simplified
    unescape pass covering the sequences backslash-n, backslash-t,
    backslash-quote (both kinds) and double backslash, in that order. -/
def unescapePythonString (s : GoStr) : GoStr :=
  let s := replaceAll s (gs "\\n") (gs "\n")
  let s := replaceAll s (gs "\\t") (gs "\t")
  let s := replaceAll s (gs "\\'") (gs "'")
  let s := replaceAll s (gs "\\\"") (gs "\"")
  let s := replaceAll s (gs "\\\\") (gs "\\")
  s

/-- The backtick character (written via its code point). -/
def backtickChar : Char := Char.ofNat 96

/-- `unescapeJSString`: as the Python unescaper, plus the escaped backtick
    (handled between the quote steps and the double-backslash step). -/
def unescapeJSString (s : GoStr) : GoStr :=
  let s := replaceAll s (gs "\\n") (gs "\n")
  let s := replaceAll s (gs "\\t") (gs "\t")
  let s := replaceAll s (gs "\\'") (gs "'")
  let s := replaceAll s (gs "\\\"") (gs "\"")
  let s := replaceAll s ('\\' :: [backtickChar]) [backtickChar]
  let s := replaceAll s (gs "\\\\") (gs "\\")
  s

/-! ## The heuristic classifier (`scanner/heuristics.go`) -/

/-- `loggingMethodNames` from `scanner/heuristics.go` (map keys as a list). -/
def loggingMethodNames : List GoStr :=
  [gs "log", gs "info", gs "warn", gs "warning", gs "error",
   gs "debug", gs "fatal", gs "trace", gs "print", gs "println",
   gs "printf", gs "exception", gs "verbose", gs "notice",
   gs "critical", gs "alert", gs "emerg", gs "emergency",
   gs "write"]

/-- `loggingReceiverNames` from `scanner/heuristics.go`. -/
def loggingReceiverNames : List GoStr :=
  [gs "log", gs "logger", gs "logging", gs "console", gs "fmt",
   gs "logrus", gs "zap", gs "zerolog", gs "tracer", gs "stderr", gs "stdout",
   gs "process", gs "window", gs "self"]

/-- `logMessagePrefixes` from `scanner/heuristics.go`. -/
def logMessagePrefixes : List GoStr :=
  [gs "error:", gs "error ", gs "warning:", gs "warning ", gs "info:", gs "info ",
   gs "debug:", gs "debug ", gs "failed to", gs "unable to", gs "could not",
   gs "exception:", gs "uncaught", gs "unhandled",
   gs "trace:", gs "notice:", gs "critical:", gs "alert:", gs "emerg:", gs "emergency:"]

/-- Matching of one compiled log-message-prefix regex
    `(?i)^\s*<quoted literal>` against a text. -/
def logPrefixMatches (p t : GoStr) : Bool :=
  goStartsWith (goToLower (t.dropWhile goIsSpace)) (goToLower p)

/-- `ScanOptions` from `scanner/types.go` (current revision, with the
    `Greedy`/`UseGitignore`/`Verbose` fields set by `main.go`).  The two
    compiled matchers whose regex semantics no claim depends on are carried
    as abstract functions (see the header comment); the compiled
    content-keyword matcher is computed from `ContentKeywords` by
    `findStringAlt` below, mirroring `compileMatchers`. -/
structure ScanOptions where
  MinLength : Int
  VariableKeywords : List GoStr
  ContentKeywords : List GoStr
  ScanConfigs : Bool
  Greedy : Bool
  UseGitignore : Bool
  Verbose : Bool
  /-- `FindString` of the compiled `(?i)\b(var-keywords)\b` regex. -/
  varKeywordFind : GoStr → GoStr
  /-- Leftmost match of each compiled placeholder pattern, if any. -/
  compiledPlaceholders : List (GoStr → Option GoStr)

/-- `PromptContext` from `scanner/types.go` (current revision). -/
structure PromptContext where
  Text : GoStr
  VariableName : GoStr
  IsMultiLineExplicit : Bool
  LinesInContent : Nat
  FileExtension : GoStr
  InvocationFunctionName : GoStr
  InvocationReceiverName : GoStr

/-- One position of the compiled content-keyword alternation
    `(?i)(kw1|kw2|...)`: try the keywords in order at the front of `s`,
    case-insensitively; the matched text has the keyword's characters, so it
    is reported as the keyword itself. -/
def altMatchAt (s : GoStr) : List GoStr → Option GoStr
  | [] => none
  | kw :: kws =>
    if goStartsWith (goToLower s) (goToLower kw) then some kw else altMatchAt s kws

/-- `FindString` of the compiled content-keyword regex: leftmost-first scan of
    the text, trying the alternation at each position.  Because
    `compileMatchers` joins the keywords into the pattern without quoting
    them, this literal-alternation semantics coincides with Go's matcher only
    for keywords free of regex metacharacters (`isLiteralKeyword`); on other
    keyword lists Go's compiled pattern diverges from a literal search. -/
def findStringAlt (kws : List GoStr) : GoStr → GoStr
  | [] => (altMatchAt [] kws).getD []
  | c :: rest =>
    match altMatchAt (c :: rest) kws with
    | some kw => kw
    | none => findStringAlt kws rest

/-- The closing-brace character (written via its code point). -/
def closeBraceChar : Char := Char.ofNat 125

/-- The characters Go's regexp syntax treats specially outside escapes. -/
def regexMetaChars : List Char :=
  ['\\', '.', '+', '*', '?', '(', ')', '|', '[', ']', braceChar, closeBraceChar, '^', '$']

/-- A keyword the unquoted pattern `(?i)(kw1|kw2|...)` still matches as a
    literal: one with no regex metacharacter. -/
def isLiteralKeyword (kw : GoStr) : Bool :=
  kw.all (fun c => regexMetaChars.contains c = false)

/-- `MatchString` of any compiled placeholder pattern (the exclusion loops in
    `IsPotentialPrompt`). -/
def placeholderMatchAny (ps : List (GoStr → Option GoStr)) (t : GoStr) : Bool :=
  ps.any (fun p => (p t).isSome)

/-- The scoring loop over `compiledPlaceholders`: first pattern whose
    `FindString` is non-empty wins (an empty leftmost match is not counted,
    matching Go's `match != ""` test). -/
def placeholderFindFirst (ps : List (GoStr → Option GoStr)) (t : GoStr) : GoStr :=
  (ps.findSome? (fun p =>
    match p t with
    | some m => if m.isEmpty then none else some m
    | none => none)).getD []

/-- The strict (`Greedy = false`) branch of `IsPotentialPrompt`
    (`scanner/heuristics.go` lines 82-104): accept iff the lowered text starts
    with some content keyword, or is multi-line and contains one. -/
def strictAccepts (kws : List GoStr) (lowerText : GoStr) (isMultiLine : Bool) : Bool :=
  kws.any (fun kw => goStartsWith lowerText (goToLower kw)) ||
  (isMultiLine && kws.any (fun kw => goContainsSub lowerText (goToLower kw)))

/-- The hard exclusions of the greedy branch (`scanner/heuristics.go` lines
    107-151): any of the four `return false` guards fires on the trimmed
    text and the resolved invocation names. -/
def greedyExclusionFires (opts : ScanOptions) (text : GoStr) (ctx : PromptContext) : Bool :=
  let lowerFuncName := goToLower ctx.InvocationFunctionName
  let lowerReceiverName := goToLower ctx.InvocationReceiverName
  let placeholderFound := placeholderMatchAny opts.compiledPlaceholders text
  (logMessagePrefixes.any (fun p => logPrefixMatches p text) &&
    goLen text < 150 && !placeholderFound) ||
  (!lowerFuncName.isEmpty &&
    (((((lowerFuncName = gs "error" : Bool) &&
         ((lowerReceiverName.isEmpty : Bool) || (lowerReceiverName = gs "new" : Bool))) ||
        (lowerFuncName = gs "throw" : Bool) ||
        ((lowerReceiverName.isEmpty : Bool) && (lowerFuncName = gs "throw_literal" : Bool))) &&
       goLen text < 150 && !(text.contains braceChar)) ||
     ((loggingMethodNames.contains lowerFuncName : Bool) &&
       goLen text < 200 && !placeholderFound) ||
     ((loggingReceiverNames.contains lowerReceiverName : Bool) &&
       ((loggingMethodNames.contains lowerFuncName : Bool) || (lowerFuncName = gs "write" : Bool)) &&
       goLen text < 100 && !(text.contains braceChar))))

/-- `fp.MatchedVariableName` as computed by the greedy branch (guarded by
    `ctx.VariableName != ""` and a non-nil compiled matcher, i.e. a non-empty
    variable-keyword list). -/
def matchedVariableName (opts : ScanOptions) (ctx : PromptContext) : GoStr :=
  if !ctx.VariableName.isEmpty && !opts.VariableKeywords.isEmpty then
    opts.varKeywordFind ctx.VariableName
  else []

/-- `fp.MatchedContentWord` as computed by the greedy branch (guarded by a
    non-nil compiled matcher, i.e. a non-empty content-keyword list). -/
def matchedContentWord (opts : ScanOptions) (text : GoStr) : GoStr :=
  if !opts.ContentKeywords.isEmpty then findStringAlt opts.ContentKeywords text
  else []

/-- `fp.MatchedPlaceholder` as computed by the greedy branch. -/
def matchedPlaceholder (opts : ScanOptions) (text : GoStr) : GoStr :=
  placeholderFindFirst opts.compiledPlaceholders text

/-- The accumulated score of the greedy branch. -/
def greedyScore (opts : ScanOptions) (text : GoStr) (ctx : PromptContext) : Nat :=
  (if !(matchedVariableName opts ctx).isEmpty then 3 else 0) +
  (if !(matchedContentWord opts text).isEmpty then 2 else 0) +
  (if !(matchedPlaceholder opts text).isEmpty then 2 else 0) +
  (if ctx.IsMultiLineExplicit || decide (ctx.LinesInContent > 1) then 1 else 0) +
  (if decide ((goLen text : Int) ≥ opts.MinLength) then 1 else 0)

/-- The decision cascade of the greedy branch after the exclusions
    (`scanner/heuristics.go` lines 153-215): the sequence of early-`return
    true` guards, written as a disjunction (each guard's body is `return
    true`, so the cascade is their disjunction). -/
def greedyScoreAccepts (opts : ScanOptions) (text : GoStr) (ctx : PromptContext) : Bool :=
  let mVar := matchedVariableName opts ctx
  let mContent := matchedContentWord opts text
  let mPlaceholder := matchedPlaceholder opts text
  let isLongEnough := decide ((goLen text : Int) ≥ opts.MinLength)
  let isMultiLine := ctx.IsMultiLineExplicit || decide (ctx.LinesInContent > 1)
  let score := greedyScore opts text ctx
  (!mVar.isEmpty && (isLongEnough || isMultiLine || !mContent.isEmpty || !mPlaceholder.isEmpty)) ||
  (!mContent.isEmpty && (isLongEnough || isMultiLine || !mPlaceholder.isEmpty)) ||
  (!mPlaceholder.isEmpty && (isLongEnough || isMultiLine)) ||
  (isMultiLine && isLongEnough && decide (score ≥ 1)) ||
  (isLongEnough && (!mContent.isEmpty || !mPlaceholder.isEmpty)) ||
  (decide (score ≥ 2) && isLongEnough) ||
  decide (score ≥ 3) ||
  (decide ((goLen text : Int) > opts.MinLength * 3) &&
    (isMultiLine || goContainsAny text ['.', '?', '!', ':']) &&
    decide (score < 2))

/-- `Scanner.IsPotentialPrompt` (`scanner/heuristics.go`, current revision):
    trim, reject empty text, then dispatch on the `Greedy` flag. -/
def isPotentialPrompt (opts : ScanOptions) (ctx : PromptContext) : Bool :=
  let text := goTrimSpace ctx.Text
  if text.isEmpty then false
  else if !opts.Greedy then
    strictAccepts opts.ContentKeywords (goToLower text)
      (ctx.IsMultiLineExplicit || decide (ctx.LinesInContent > 1))
  else if greedyExclusionFires opts text ctx then false
  else greedyScoreAccepts opts text ctx

/-! ## Default configuration (`scanner/defaults.go`) -/

/-- `DefaultMinLength`. -/
def defaultMinLength : Int := 30

/-- `DefaultVarKeywordsList`. -/
def defaultVarKeywordsList : List GoStr :=
  [gs "prompt", gs "template", gs "system_message", gs "user_message",
   gs "instruction", gs "persona", gs "query", gs "question",
   gs "task_description", gs "context_str"]

/-- `DefaultContentKeywordsList`. -/
def defaultContentKeywordsList : List GoStr :=
  [gs "you are a", gs "you are an", gs "you are the", gs "act as",
   gs "from the following", gs "from this", gs "your task is to",
   gs "you need to", gs "break down", gs "translate the", gs "summarize the",
   gs "given the", gs "answer the following question",
   gs "extract entities from", gs "generate code for", gs "what is the",
   gs "explain the", gs "act as a", gs "respond with",
   gs "based on the provided text", gs "here's", gs "here is", gs "here are",
   gs "consider this", gs "consider the following", gs "analyze this",
   gs "analyze the following"]

/-! ## Bridging lemmas for the keyword matchers -/

/-- A successful start-of-string match is in particular a substring match. -/
theorem goContainsSub_of_goStartsWith {s p : GoStr}
    (h : goStartsWith s p = true) : goContainsSub s p = true := by
  cases s with
  | nil =>
    cases p with
    | nil => rfl
    | cons c cs => simp [goStartsWith] at h
  | cons c rest => simp [goContainsSub, h]

/-- Whatever `altMatchAt` returns is one of the configured keywords. -/
theorem altMatchAt_mem {s : GoStr} {kws : List GoStr} {kw : GoStr}
    (h : altMatchAt s kws = some kw) : kw ∈ kws := by
  induction kws with
  | nil => simp [altMatchAt] at h
  | cons k ks ih =>
    by_cases hk : goStartsWith (goToLower s) (goToLower k) = true
    · simp [altMatchAt, hk] at h
      simp [h]
    · simp [altMatchAt, hk] at h
      exact List.mem_cons_of_mem _ (ih h)

/-- If some keyword matches at the current position, the alternation matches. -/
theorem altMatchAt_isSome {s : GoStr} {kws : List GoStr} {kw : GoStr}
    (hmem : kw ∈ kws) (h : goStartsWith (goToLower s) (goToLower kw) = true) :
    (altMatchAt s kws).isSome = true := by
  induction kws with
  | nil => cases hmem
  | cons k ks ih =>
    by_cases hk : goStartsWith (goToLower s) (goToLower k) = true
    · simp [altMatchAt, hk]
    · rcases List.mem_cons.mp hmem with hkw | hkw
      · subst hkw; exact absurd h hk
      · simp [altMatchAt, hk]
        exact ih hkw

/-- If some keyword occurs (case-insensitively) in the text, the scan of the
    compiled alternation returns one of the keywords. -/
theorem findStringAlt_mem_of_contains {kws : List GoStr} :
    ∀ s : GoStr,
      (∃ kw ∈ kws, goContainsSub (goToLower s) (goToLower kw) = true) →
      ∃ kw' ∈ kws, findStringAlt kws s = kw' := by
  intro s
  induction s with
  | nil =>
    rintro ⟨kw, hmem, hc⟩
    have hkw : goStartsWith (goToLower ([] : GoStr)) (goToLower kw) = true := by
      have : (goToLower kw).isEmpty = true := by
        simpa [goToLower, goContainsSub] using hc
      cases hlow : goToLower kw with
      | nil => rfl
      | cons c cs => rw [hlow] at this; simp [List.isEmpty] at this
    have hsome := altMatchAt_isSome hmem hkw
    rcases Option.isSome_iff_exists.mp hsome with ⟨kw', hkw'⟩
    refine ⟨kw', altMatchAt_mem hkw', ?_⟩
    simp [findStringAlt, hkw']
  | cons c rest ih =>
    rintro ⟨kw, hmem, hc⟩
    cases halt : altMatchAt (c :: rest) kws with
    | some kw' =>
      refine ⟨kw', altMatchAt_mem halt, ?_⟩
      simp [findStringAlt, halt]
    | none =>
      have hc' : goStartsWith (goToLower (c :: rest)) (goToLower kw) = true ∨
          goContainsSub (goToLower rest) (goToLower kw) = true := by
        have hunf : goContainsSub (goToLower (c :: rest)) (goToLower kw) =
            (goStartsWith (goToLower (c :: rest)) (goToLower kw) ||
             goContainsSub (goToLower rest) (goToLower kw)) := by
          show goContainsSub (lowerChar c :: goToLower rest) (goToLower kw) = _
          rfl
        rw [hunf] at hc
        exact Bool.or_eq_true_iff.mp hc
      rcases hc' with hpre | hcont
      · have := altMatchAt_isSome hmem hpre
        rw [halt] at this
        simp at this
      · rcases ih ⟨kw, hmem, hcont⟩ with ⟨kw', hmem', heq⟩
        refine ⟨kw', hmem', ?_⟩
        simp [findStringAlt, halt, heq]

/-- An accepted input always has non-blank (hence non-empty) trimmed text. -/
theorem isPotentialPrompt_trim_ne {opts : ScanOptions} {ctx : PromptContext}
    (h : isPotentialPrompt opts ctx = true) :
    (goTrimSpace ctx.Text).isEmpty = false := by
  by_cases he : (goTrimSpace ctx.Text).isEmpty = true
  · rw [isPotentialPrompt] at h
    simp only [he, if_true] at h
    cases h
  · simpa using he

/-- C1 -/
theorem strict_mode_characterization (opts : ScanOptions) (ctx : PromptContext)
    (hg : opts.Greedy = false) :
    (isPotentialPrompt opts ctx = true ↔
      ((goTrimSpace ctx.Text).isEmpty = false ∧
        ((∃ kw ∈ opts.ContentKeywords,
            goStartsWith (goToLower (goTrimSpace ctx.Text)) (goToLower kw) = true) ∨
         ((ctx.IsMultiLineExplicit = true ∨ ctx.LinesInContent > 1) ∧
          ∃ kw ∈ opts.ContentKeywords,
            goContainsSub (goToLower (goTrimSpace ctx.Text)) (goToLower kw) = true)))) ∧
    (∀ (opts' : ScanOptions) (ctx' : PromptContext), opts'.Greedy = false →
      opts'.ContentKeywords = opts.ContentKeywords → ctx'.Text = ctx.Text →
      ctx'.IsMultiLineExplicit = ctx.IsMultiLineExplicit →
      ctx'.LinesInContent = ctx.LinesInContent →
      isPotentialPrompt opts' ctx' = isPotentialPrompt opts ctx) := by
  constructor
  · rw [isPotentialPrompt]
    by_cases he : (goTrimSpace ctx.Text).isEmpty = true
    · simp [he]
    · have he' : (goTrimSpace ctx.Text).isEmpty = false := by simpa using he
      simp only [he', Bool.false_eq_true, if_false, hg, Bool.not_false, if_true]
      rw [strictAccepts]
      simp [List.any_eq_true, Bool.or_eq_true_iff, Bool.and_eq_true_iff, decide_eq_true_iff]
  · intro opts' ctx' hg' hk ht hm hl
    rw [isPotentialPrompt, isPotentialPrompt, ht, hk, hm, hl, hg', hg]
    by_cases he : (goTrimSpace ctx.Text).isEmpty = true <;> simp [he]

/-- Configuration for the strict-mode witness: default keywords, strict mode. -/
def c1wOpts : ScanOptions :=
  { MinLength := defaultMinLength, VariableKeywords := defaultVarKeywordsList,
    ContentKeywords := defaultContentKeywordsList, ScanConfigs := false,
    Greedy := false, UseGitignore := false, Verbose := false,
    varKeywordFind := fun _ => [], compiledPlaceholders := [] }

/-- A 40-character single-line string containing no configured content keyword. -/
def c1wCtx : PromptContext :=
  { Text := gs "abcdefghij abcdefghij abcdefghij abcdefg", VariableName := [],
    IsMultiLineExplicit := false, LinesInContent := 1, FileExtension := gs ".py",
    InvocationFunctionName := [], InvocationReceiverName := [] }

/-- Witness for C1. -/
theorem strict_mode_characterization_witness :
    c1wOpts.Greedy = false ∧ goLen c1wCtx.Text = 40 ∧
    isPotentialPrompt c1wOpts c1wCtx = false := by
  refine ⟨rfl, by decide, ?_⟩
  have h := (strict_mode_characterization c1wOpts c1wCtx rfl).1
  cases hb : isPotentialPrompt c1wOpts c1wCtx
  · rfl
  · exact absurd (h.mp hb) (by decide)

/-- Configuration refuting the mode-superset claim: one content keyword,
    default minimum length, no other signals. -/
def c2opts : ScanOptions :=
  { MinLength := defaultMinLength, VariableKeywords := [],
    ContentKeywords := [gs "you are a"], ScanConfigs := false,
    Greedy := false, UseGitignore := false, Verbose := false,
    varKeywordFind := fun _ => [], compiledPlaceholders := [] }

/-- A short single-line text that *starts with* the configured keyword. -/
def c2ctx : PromptContext :=
  { Text := gs "you are a", VariableName := [],
    IsMultiLineExplicit := false, LinesInContent := 1, FileExtension := gs ".py",
    InvocationFunctionName := [], InvocationReceiverName := [] }

/-- C2 counterexample. -/
theorem strict_superset_counterexample :
    isPotentialPrompt c2opts c2ctx = true ∧
    isPotentialPrompt { c2opts with Greedy := true } c2ctx = false := by
  constructor <;> decide

/-- C2 amended: strict acceptance carries over to permissive mode when every
    configured content keyword is non-empty and free of regex metacharacters
    (so that the unquoted compiled pattern is the literal alternation this
    embedding models), no permissive hard exclusion fires on the input, and
    the text has a length, multi-line or placeholder co-signal. -/
theorem strict_implies_permissive_amended (opts : ScanOptions) (ctx : PromptContext)
    (hkw : ∀ kw ∈ opts.ContentKeywords, kw ≠ [] ∧ isLiteralKeyword kw = true)
    (hstrict : isPotentialPrompt { opts with Greedy := false } ctx = true)
    (hexcl : greedyExclusionFires opts (goTrimSpace ctx.Text) ctx = false)
    (hsig : (goLen (goTrimSpace ctx.Text) : Int) ≥ opts.MinLength
          ∨ ctx.IsMultiLineExplicit = true ∨ ctx.LinesInContent > 1
          ∨ (matchedPlaceholder opts (goTrimSpace ctx.Text)).isEmpty = false) :
    isPotentialPrompt { opts with Greedy := true } ctx = true := by
  have htrim : (goTrimSpace ctx.Text).isEmpty = false := isPotentialPrompt_trim_ne hstrict
  -- extract the strict-mode acceptance condition
  have hstrict' : strictAccepts opts.ContentKeywords (goToLower (goTrimSpace ctx.Text))
      (ctx.IsMultiLineExplicit || decide (ctx.LinesInContent > 1)) = true := by
    rw [isPotentialPrompt] at hstrict
    simpa [htrim] using hstrict
  -- in either strict branch, some keyword occurs case-insensitively in the text
  have hcont : ∃ kw ∈ opts.ContentKeywords,
      goContainsSub (goToLower (goTrimSpace ctx.Text)) (goToLower kw) = true := by
    rw [strictAccepts] at hstrict'
    rcases Bool.or_eq_true_iff.mp hstrict' with hpre | hml
    · rcases List.any_eq_true.mp hpre with ⟨kw, hmem, hsw⟩
      exact ⟨kw, hmem, goContainsSub_of_goStartsWith hsw⟩
    · rcases List.any_eq_true.mp (Bool.and_eq_true_iff.mp hml).2 with ⟨kw, hmem, hsw⟩
      exact ⟨kw, hmem, hsw⟩
  -- hence the compiled content matcher of the greedy branch fires
  have hmc : (matchedContentWord opts (goTrimSpace ctx.Text)).isEmpty = false := by
    rcases findStringAlt_mem_of_contains (goTrimSpace ctx.Text) hcont with ⟨kw', hmem', heq⟩
    have hne : kw' ≠ [] := (hkw kw' hmem').1
    have hkne : opts.ContentKeywords.isEmpty = false := by
      cases hkempty : opts.ContentKeywords with
      | nil => rcases hcont with ⟨kw, hmem, _⟩; rw [hkempty] at hmem; cases hmem
      | cons a l => rfl
    rw [matchedContentWord]
    simp only [hkne, Bool.not_false, Bool.true_and, if_true, heq]
    cases hkw' : kw' with
    | nil => exact absurd hkw' hne
    | cons a l => rfl
  have hscore : greedyScoreAccepts opts (goTrimSpace ctx.Text) ctx = true := by
    rw [greedyScoreAccepts]
    rcases hsig with h | h | h | h <;> simp [hmc, h]
  rw [isPotentialPrompt]
  have hg : ({ opts with Greedy := true } : ScanOptions).Greedy = true := rfl
  simp only [htrim, hg, Bool.not_true, Bool.false_eq_true, if_false]
  have he : greedyExclusionFires { opts with Greedy := true } (goTrimSpace ctx.Text) ctx =
      greedyExclusionFires opts (goTrimSpace ctx.Text) ctx := rfl
  have hs : greedyScoreAccepts { opts with Greedy := true } (goTrimSpace ctx.Text) ctx =
      greedyScoreAccepts opts (goTrimSpace ctx.Text) ctx := rfl
  rw [he, hexcl, hs]
  simpa using hscore

/-- Configuration for the C2 witness. -/
def c2wOpts : ScanOptions :=
  { MinLength := defaultMinLength, VariableKeywords := [],
    ContentKeywords := [gs "act as"], ScanConfigs := false,
    Greedy := false, UseGitignore := false, Verbose := false,
    varKeywordFind := fun _ => [], compiledPlaceholders := [] }

/-- A long keyword-leading text for the C2 witness. -/
def c2wCtx : PromptContext :=
  { Text := gs "act as a travel agent and plan a two week trip", VariableName := [],
    IsMultiLineExplicit := false, LinesInContent := 1, FileExtension := gs ".py",
    InvocationFunctionName := [], InvocationReceiverName := [] }

/-- Witness for the amended C2. -/
theorem strict_implies_permissive_amended_witness :
    (∀ kw ∈ c2wOpts.ContentKeywords, kw ≠ [] ∧ isLiteralKeyword kw = true) ∧
    isPotentialPrompt { c2wOpts with Greedy := false } c2wCtx = true ∧
    greedyExclusionFires c2wOpts (goTrimSpace c2wCtx.Text) c2wCtx = false ∧
    isPotentialPrompt { c2wOpts with Greedy := true } c2wCtx = true := by
  refine ⟨by decide, by decide, by decide, ?_⟩
  exact strict_implies_permissive_amended c2wOpts c2wCtx (by decide) (by decide) (by decide)
    (Or.inl (by decide))

/-! ## Idempotence analysis of the unescape pass -/

/-- `replaceAllFuel` is the identity when the first pattern character is
    absent from the text. -/
theorem replaceAllFuel_id_of_head_notMem {b : Char} {p rep : GoStr} :
    ∀ (t : GoStr) (fuel : Nat), b ∉ t → replaceAllFuel (b :: p) rep fuel t = t := by
  intro t
  induction t with
  | nil => intro fuel _; cases fuel <;> rfl
  | cons c rest ih =>
    intro fuel h
    cases fuel with
    | zero => rfl
    | succ n =>
      have hcb : (c == b) = false := by
        have : c ≠ b := fun he => h (he ▸ List.mem_cons_self c rest)
        simpa using this
      have hsw : goStartsWith (c :: rest) (b :: p) = false := by
        simp [goStartsWith, hcb]
      rw [replaceAllFuel, hsw]
      simp only [Bool.false_eq_true, if_false, List.cons.injEq, true_and]
      exact ih n (fun hm => h (List.mem_cons_of_mem c hm))

/-- `strings.ReplaceAll` is the identity when the first pattern character is
    absent from the text. -/
theorem replaceAll_id_of_head_notMem {b : Char} {p rep : GoStr} (t : GoStr)
    (h : b ∉ t) : replaceAll t (b :: p) rep = t := by
  rw [replaceAll]
  simp only [List.isEmpty_cons, Bool.false_eq_true, if_false]
  exact replaceAllFuel_id_of_head_notMem t t.length h

/-- The Python unescaper fixes any backslash-free string. -/
theorem unescapePythonString_id_of_no_backslash {t : GoStr} (h : '\\' ∉ t) :
    unescapePythonString t = t := by
  rw [unescapePythonString]
  rw [show gs "\\n" = '\\' :: ['n'] from rfl, replaceAll_id_of_head_notMem t h,
      show gs "\\t" = '\\' :: ['t'] from rfl, replaceAll_id_of_head_notMem t h,
      show gs "\\'" = '\\' :: ['\''] from rfl, replaceAll_id_of_head_notMem t h,
      show gs "\\\"" = '\\' :: ['"'] from rfl, replaceAll_id_of_head_notMem t h,
      show gs "\\\\" = '\\' :: ['\\'] from rfl, replaceAll_id_of_head_notMem t h]

/-- The JS unescaper fixes any backslash-free string. -/
theorem unescapeJSString_id_of_no_backslash {t : GoStr} (h : '\\' ∉ t) :
    unescapeJSString t = t := by
  rw [unescapeJSString]
  rw [show gs "\\n" = '\\' :: ['n'] from rfl, replaceAll_id_of_head_notMem t h,
      show gs "\\t" = '\\' :: ['t'] from rfl, replaceAll_id_of_head_notMem t h,
      show gs "\\'" = '\\' :: ['\''] from rfl, replaceAll_id_of_head_notMem t h,
      show gs "\\\"" = '\\' :: ['"'] from rfl, replaceAll_id_of_head_notMem t h,
      replaceAll_id_of_head_notMem t h,
      show gs "\\\\" = '\\' :: ['\\'] from rfl, replaceAll_id_of_head_notMem t h]

/-- C5 counterexample. -/
theorem unescape_idempotent_counterexample :
    unescapePythonString (unescapePythonString (gs "\\\\\\\\")) ≠
      unescapePythonString (gs "\\\\\\\\") := by decide

/-- C5 amended -/
theorem unescape_idempotent_amended (s : GoStr) :
    ('\\' ∉ unescapePythonString s →
      unescapePythonString (unescapePythonString s) = unescapePythonString s) ∧
    ('\\' ∉ unescapeJSString s →
      unescapeJSString (unescapeJSString s) = unescapeJSString s) :=
  ⟨fun h => unescapePythonString_id_of_no_backslash h,
   fun h => unescapeJSString_id_of_no_backslash h⟩

/-- Witness for the amended C5. -/
theorem unescape_idempotent_amended_witness :
    '\\' ∉ unescapePythonString (gs "hi\\nthere") ∧
    unescapePythonString (unescapePythonString (gs "hi\\nthere")) =
      unescapePythonString (gs "hi\\nthere") :=
  ⟨by decide, (unescape_idempotent_amended (gs "hi\\nthere")).1 (by decide)⟩

/-! ## Permissive-mode exclusions -/

/-- Every known logging verb is a non-empty name. -/
theorem loggingMethodNames_ne_nil : ∀ l ∈ loggingMethodNames, l.isEmpty = false := by decide

/-- C3 -/
theorem logging_verb_exclusion (opts : ScanOptions) (ctx : PromptContext)
    (hg : opts.Greedy = true)
    (hfn : goToLower ctx.InvocationFunctionName ∈ loggingMethodNames)
    (hlen : goLen (goTrimSpace ctx.Text) < 200)
    (hph : ∀ p ∈ opts.compiledPlaceholders, p (goTrimSpace ctx.Text) = none) :
    isPotentialPrompt opts ctx = false := by
  by_cases he : (goTrimSpace ctx.Text).isEmpty = true
  · rw [isPotentialPrompt]; simp [he]
  · have he' : (goTrimSpace ctx.Text).isEmpty = false := by simpa using he
    have hne : (goToLower ctx.InvocationFunctionName).isEmpty = false :=
      loggingMethodNames_ne_nil _ hfn
    have hfound : placeholderMatchAny opts.compiledPlaceholders (goTrimSpace ctx.Text) = false := by
      rw [placeholderMatchAny]
      rw [List.any_eq_false]
      intro p hp
      simp [hph p hp]
    have hcont : loggingMethodNames.contains (goToLower ctx.InvocationFunctionName) = true := by
      exact List.elem_eq_true_of_mem hfn
    have hexcl : greedyExclusionFires opts (goTrimSpace ctx.Text) ctx = true := by
      rw [greedyExclusionFires]
      simp [hne, hfound, hcont, hlen]
      tauto
    rw [isPotentialPrompt]
    simp [he', hg, hexcl]

/-- Configuration for the C3 witness (permissive mode, no placeholder
    patterns configured, so the no-placeholder hypothesis of the exclusion is
    met by the scenario text). -/
def c3wOpts : ScanOptions :=
  { MinLength := defaultMinLength, VariableKeywords := defaultVarKeywordsList,
    ContentKeywords := defaultContentKeywordsList, ScanConfigs := false,
    Greedy := true, UseGitignore := false, Verbose := false,
    varKeywordFind := fun _ => [], compiledPlaceholders := [] }

/-- The context of `logger.error("failed to connect: %s", err)`. -/
def c3wCtx : PromptContext :=
  { Text := gs "failed to connect: %s", VariableName := [],
    IsMultiLineExplicit := false, LinesInContent := 1, FileExtension := gs ".js",
    InvocationFunctionName := gs "error", InvocationReceiverName := gs "logger" }

/-- Witness for C3. -/
theorem logging_verb_exclusion_witness :
    goToLower c3wCtx.InvocationFunctionName ∈ loggingMethodNames ∧
    goLen (goTrimSpace c3wCtx.Text) < 200 ∧
    isPotentialPrompt c3wOpts c3wCtx = false := by
  refine ⟨by decide, by decide, ?_⟩
  exact logging_verb_exclusion c3wOpts c3wCtx rfl (by decide) (by decide) (fun p hp => nomatch hp)

/-- Configuration for the Go `panic("invalid state")` scenario: permissive
    mode with the default keyword lists (no default placeholder pattern
    matches the scenario text, so none are needed). -/
def c4panicOpts : ScanOptions :=
  { MinLength := defaultMinLength, VariableKeywords := defaultVarKeywordsList,
    ContentKeywords := defaultContentKeywordsList, ScanConfigs := false,
    Greedy := true, UseGitignore := false, Verbose := false,
    varKeywordFind := fun _ => [], compiledPlaceholders := [] }

/-- The context `ParseGoFile` builds for `panic("invalid state")`: the literal
    is a direct call argument, so the invocation function name is `panic`. -/
def c4panicCtx : PromptContext :=
  { Text := gs "invalid state", VariableName := [],
    IsMultiLineExplicit := false, LinesInContent := 1, FileExtension := gs ".go",
    InvocationFunctionName := gs "panic", InvocationReceiverName := [] }

/-- C4 amended -/
theorem throw_exclusion_amended :
    (∀ (opts : ScanOptions) (ctx : PromptContext),
      opts.Greedy = true →
      ((goToLower ctx.InvocationFunctionName = gs "error" ∧
          (goToLower ctx.InvocationReceiverName = [] ∨
           goToLower ctx.InvocationReceiverName = gs "new")) ∨
       goToLower ctx.InvocationFunctionName = gs "throw" ∨
       (goToLower ctx.InvocationReceiverName = [] ∧
        goToLower ctx.InvocationFunctionName = gs "throw_literal")) →
      goLen (goTrimSpace ctx.Text) < 150 →
      braceChar ∉ goTrimSpace ctx.Text →
      isPotentialPrompt opts ctx = false) ∧
    isPotentialPrompt c4panicOpts c4panicCtx = false := by
  constructor
  · intro opts ctx hg hguard hlen hbrace
    by_cases he : (goTrimSpace ctx.Text).isEmpty = true
    · rw [isPotentialPrompt]; simp [he]
    · have he' : (goTrimSpace ctx.Text).isEmpty = false := by simpa using he
      have hne : (goToLower ctx.InvocationFunctionName).isEmpty = false := by
        rcases hguard with ⟨h, _⟩ | h | ⟨_, h⟩ <;> rw [h] <;> rfl
      have hexcl : greedyExclusionFires opts (goTrimSpace ctx.Text) ctx = true := by
        rw [greedyExclusionFires]
        simp [hne, hlen, hbrace]
        rcases hguard with h1 | h2 | h3
        · exact Or.inr (Or.inl (Or.inl (Or.inl (Or.inl h1))))
        · exact Or.inr (Or.inl (Or.inl (Or.inl (Or.inr h2))))
        · exact Or.inr (Or.inl (Or.inl (Or.inr h3)))
      rw [isPotentialPrompt]
      simp [he', hg, hexcl]
  · decide

/-- The context the tree-sitter pipeline builds for a short, non-templated,
    multi-line Python literal raised bare (`raise "..."`):
    `determineContextAroundNode` marks it with the function name
    `raise_literal`. -/
def c4raiseCtx : PromptContext :=
  { Text := gs "you are a helpful assistant.\nplease list the steps to cook rice.",
    VariableName := [],
    IsMultiLineExplicit := true, LinesInContent := 2, FileExtension := gs ".py",
    InvocationFunctionName := gs "raise_literal", InvocationReceiverName := [] }

/-- C4 counterexample. -/
theorem throw_exclusion_counterexample :
    c4raiseCtx.InvocationFunctionName = gs "raise_literal" ∧
    goLen (goTrimSpace c4raiseCtx.Text) < 150 ∧
    braceChar ∉ goTrimSpace c4raiseCtx.Text ∧
    placeholderMatchAny c4panicOpts.compiledPlaceholders (goTrimSpace c4raiseCtx.Text) = false ∧
    isPotentialPrompt c4panicOpts c4raiseCtx = true := by
  refine ⟨rfl, by decide, by decide, rfl, by decide⟩

/-- Witness for the amended C4: a bare JS `throw "..."` literal. -/
def c4wCtx : PromptContext :=
  { Text := gs "invalid state", VariableName := [],
    IsMultiLineExplicit := false, LinesInContent := 1, FileExtension := gs ".js",
    InvocationFunctionName := gs "throw_literal", InvocationReceiverName := [] }

/-- Witness for the amended C4. -/
theorem throw_exclusion_amended_witness :
    goToLower c4wCtx.InvocationFunctionName = gs "throw_literal" ∧
    goLen (goTrimSpace c4wCtx.Text) < 150 ∧
    isPotentialPrompt c4panicOpts c4wCtx = false := by
  refine ⟨by decide, by decide, ?_⟩
  exact throw_exclusion_amended.1 c4panicOpts c4wCtx rfl
    (Or.inr (Or.inr ⟨by decide, by decide⟩)) (by decide) (by decide)

/-! ## Syntax-tree model for the tree-sitter pipeline

A tree-sitter node carries its identity (`ID()`, modelled as a `Nat`), its
type string, its source content (`Content(contentBytes)`), its start/end rows
and its (field-name, child) list; `FieldNameForChild` is the empty string for
children without a field.  An occurrence of a node in a tree is paired with
its ancestor chain (nearest first), which stands for the `Parent()` pointers
used by `determineContextAroundNode`. -/

inductive TSNode where
  | mk (id : Nat) (typ : GoStr) (content : GoStr) (startRow endRow : Nat)
       (children : List (GoStr × TSNode))

/-- `ID()`. -/
def TSNode.id : TSNode → Nat
  | .mk i _ _ _ _ _ => i

/-- `Type()`. -/
def TSNode.typ : TSNode → GoStr
  | .mk _ t _ _ _ _ => t

/-- `Content(contentBytes)`. -/
def TSNode.content : TSNode → GoStr
  | .mk _ _ c _ _ _ => c

/-- `StartPoint().Row`. -/
def TSNode.startRow : TSNode → Nat
  | .mk _ _ _ r _ _ => r

/-- `EndPoint().Row`. -/
def TSNode.endRow : TSNode → Nat
  | .mk _ _ _ _ r _ => r

/-- The (field-name, child) list. -/
def TSNode.children : TSNode → List (GoStr × TSNode)
  | .mk _ _ _ _ _ cs => cs

/-- `ChildByFieldName`: the first child carrying the given field name. -/
def childByFieldName (n : TSNode) (f : GoStr) : Option TSNode :=
  (n.children.find? (fun c => c.1 = f)).map (fun c => c.2)

/-- The quote-stripping of a JSON-ish `pair` key
    (`determineContextAroundNode`, `pair` case). -/
def unquoteKey (k : GoStr) : GoStr :=
  if 2 ≤ k.length ∧ k.head? = some '"' ∧ k.getLast? = some '"' then
    (k.drop 1).dropLast
  else k

/-- The variable-binding switch of `determineContextAroundNode`, which runs
    only while `current.ID() == stringNode.ID()` and leaves the previous
    name untouched when its side conditions fail. -/
def varCapture (parentNode current : TSNode) (old : GoStr) : GoStr :=
  if parentNode.typ = gs "assignment_expression" then
    match childByFieldName parentNode (gs "right") with
    | some rhs =>
      if rhs.id = current.id then
        match childByFieldName parentNode (gs "left") with
        | some l => l.content
        | none => old
      else old
    | none => old
  else if parentNode.typ = gs "variable_declarator" then
    match childByFieldName parentNode (gs "value") with
    | some v =>
      if v.id = current.id then
        match childByFieldName parentNode (gs "name") with
        | some n => n.content
        | none => old
      else old
    | none => old
  else if parentNode.typ = gs "assignment" then
    match childByFieldName parentNode (gs "right") with
    | some rhs =>
      if rhs.id = current.id then
        match childByFieldName parentNode (gs "left") with
        | some l => l.content
        | none => old
      else old
    | none => old
  else if parentNode.typ = gs "pair" then
    match childByFieldName parentNode (gs "value") with
    | some v =>
      if v.id = current.id then
        match childByFieldName parentNode (gs "key") with
        | some k => unquoteKey k.content
        | none => old
      else old
    | none => old
  else old

/-- The call-site switch of `determineContextAroundNode`: given the node
    above the argument list, the (function name, receiver name) it yields. -/
def callContextOf (lang : GoStr) (callLikeNode : TSNode) : GoStr × GoStr :=
  if callLikeNode.typ = gs "call_expression" ∨ callLikeNode.typ = gs "call" then
    let funcNode :=
      if lang = gs "python" ∧ callLikeNode.typ = gs "call" then
        (callLikeNode.children.head?).map (fun c => c.2)
      else childByFieldName callLikeNode (gs "function")
    match funcNode with
    | none => ([], [])
    | some fn =>
      if fn.typ = gs "identifier" then (fn.content, [])
      else if fn.typ = gs "member_expression" then
        ((match childByFieldName fn (gs "property") with
          | some p => p.content
          | none => []),
         (match childByFieldName fn (gs "object") with
          | some o => o.content
          | none => []))
      else if fn.typ = gs "attribute" then
        ((match childByFieldName fn (gs "attribute") with
          | some a => a.content
          | none => []),
         (match childByFieldName fn (gs "object") with
          | some o => o.content
          | none => []))
      else ([], [])
  else if callLikeNode.typ = gs "new_expression" then
    ((match childByFieldName callLikeNode (gs "constructor") with
      | some c => c.content
      | none => []),
     gs "new")
  else ([], [])

/-- The bounded upward walk of `determineContextAroundNode`
    (`treesitter_parser.go`, revision with context resolution): `fuel` is the
    remaining loop iterations (4 at the top), `cur` the current node and the
    list its ancestor chain; `v`, `f`, `r` accumulate the variable name,
    invocation function name and receiver name. -/
def dcAux (sid : Nat) (lang : GoStr) :
    Nat → TSNode → List TSNode → GoStr → GoStr → GoStr → GoStr × GoStr × GoStr
  | 0, _, _, v, f, r => (v, f, r)
  | _ + 1, _, [], v, f, r => (v, f, r)
  | fuel + 1, cur, p :: rest, v, f, r =>
    let v1 := if cur.id = sid then varCapture p cur v else v
    if p.typ = gs "arguments" ∨ p.typ = gs "argument_list" ∨ p.typ = gs "tuple" then
      if p.children.any (fun c => c.2.id = cur.id) then
        match rest.head? with
        | some callLike =>
          let fr := callContextOf lang callLike
          if ¬fr.1.isEmpty ∨ ¬fr.2.isEmpty then (v1, fr.1, fr.2)
          else dcAux sid lang fuel p rest v1 f r
        | none => dcAux sid lang fuel p rest v1 f r
      else dcAux sid lang fuel p rest v1 f r
    else if p.typ = gs "throw_statement" then
      match childByFieldName p (gs "argument") with
      | some a =>
        if a.id = cur.id then
          (v1, (if f.isEmpty ∧ r.isEmpty then gs "throw_literal" else f), r)
        else dcAux sid lang fuel p rest v1 f r
      | none => dcAux sid lang fuel p rest v1 f r
    else if p.typ = gs "raise_statement" then
      if p.children.any (fun c => c.2.id = cur.id && c.1.isEmpty) then
        (v1, (if f.isEmpty ∧ r.isEmpty then gs "raise_literal" else f), r)
      else dcAux sid lang fuel p rest v1 f r
    else dcAux sid lang fuel p rest v1 f r

/-- `determineContextAroundNode`: up to 4 loop iterations above the string
    node, returning (variable name, invocation function name, receiver). -/
def determineContextAroundNode (stringNode : TSNode) (ancestors : List TSNode)
    (lang : GoStr) : GoStr × GoStr × GoStr :=
  dcAux stringNode.id lang 4 stringNode ancestors [] [] []

/-! ## Content decoding (`ParseTreeSitterFile`, per-language switch) -/

/-- The Python prefix analysis (raw/bytes markers and prefix length) of the
    decoding switch: successive tests of the first character, then the
    two-character raw-format combinations. -/
def pyPrefix (raw : GoStr) : Bool × Bool × Nat :=
  match raw.head? with
  | none => (false, false, 0)
  | some c1 =>
    let isRaw1 := c1 == 'r' || c1 == 'R'
    let pl1 := if isRaw1 then 1 else 0
    let pl2 := if c1 == 'f' || c1 == 'F' then 1 else pl1
    let pl3 := if c1 == 'u' || c1 == 'U' then 1 else pl2
    let isBytes := c1 == 'b' || c1 == 'B'
    let pl4 := if isBytes then 1 else pl3
    if raw.length > pl4 then
      let charNext := raw.getD pl4 ' '
      let fr := (c1 == 'f' || c1 == 'F') && (charNext == 'r' || charNext == 'R')
      let rf := (c1 == 'r' || c1 == 'R') && (charNext == 'f' || charNext == 'F')
      (isRaw1 || fr || rf, isBytes, if fr || rf then 2 else pl4)
    else (isRaw1, isBytes, pl4)

/-- The Python branch of the decoding switch: prefix stripping, quote
    stripping (with the empty-then-else dead branch of the source kept as
    written), optional unescaping, and the row-based multi-line fallback.
    Returns (decoded content, explicit-multi-line flag). -/
def decodePython (raw : GoStr) (startRow endRow : Nat) : GoStr × Bool :=
  let pfx := pyPrefix raw
  let isRawString := pfx.1
  let isBytes := pfx.2.1
  let prefixLen := pfx.2.2
  if prefixLen > 0 ∧ raw.length < prefixLen then ([], false)
  else
    let cap := raw.drop prefixLen
    let qinfo : GoStr × Nat × Bool :=
      if goStartsWith cap (gs "\"\"\"") then (gs "\"\"\"", 3, true)
      else if goStartsWith cap (gs "'''") then (gs "'''", 3, true)
      else if goStartsWith cap (gs "\"") then (gs "\"", 1, false)
      else if goStartsWith cap (gs "'") then (gs "'", 1, false)
      else ([], 0, false)
    let quoteChar := qinfo.1
    let quoteLen := qinfo.2.1
    let mle1 := qinfo.2.2
    let actualContent :=
      if quoteLen > 0 then
        if 2 * quoteLen ≤ cap.length ∧ goEndsWith cap quoteChar = true then
          (cap.drop quoteLen).take (cap.length - 2 * quoteLen)
        else
          let ac := cap.drop quoteLen
          if 0 < ac.length ∧ ac.getLast? = cap.head? ∧ quoteLen = 1 then ac
          else if cap.length < 2 * quoteLen then []
          else ac
      else cap
    let actualContent2 :=
      if ¬isRawString = true ∧ ¬isBytes = true then unescapePythonString actualContent
      else actualContent
    let mle2 := if ¬mle1 = true ∧ startRow ≠ endRow then true else mle1
    (actualContent2, mle2)

/-- The JavaScript/TypeScript branch of the decoding switch. -/
def decodeJS (nodeTyp raw : GoStr) (startRow endRow : Nat) : GoStr × Bool :=
  let acMle : GoStr × Bool :=
    if nodeTyp = gs "template_string" then
      let inner :=
        if 2 ≤ raw.length ∧ raw.head? = some backtickChar ∧ raw.getLast? = some backtickChar then
          (raw.drop 1).dropLast
        else raw
      (unescapeJSString inner, true)
    else if nodeTyp = gs "string_fragment" then
      (unescapeJSString raw, raw.contains '\n')
    else if (goStartsWith raw (gs "\"") = true ∧ goEndsWith raw (gs "\"") = true) ∨
            (goStartsWith raw (gs "'") = true ∧ goEndsWith raw (gs "'") = true) then
      let inner := if 2 ≤ raw.length then unescapeJSString ((raw.drop 1).dropLast) else []
      (inner, inner.contains '\n')
    else (raw, false)
  if ¬acMle.2 = true ∧ startRow ≠ endRow then (acMle.1, true) else acMle

/-- The per-language decoding dispatch of `ParseTreeSitterFile` (for other
    languages the pre-initialised empty content and false flag survive). -/
def decodeTS (lang : GoStr) (sn : TSNode) : GoStr × Bool :=
  if lang = gs "python" then decodePython sn.content sn.startRow sn.endRow
  else if lang = gs "javascript" ∨ lang = gs "typescript" then
    decodeJS sn.typ sn.content sn.startRow sn.endRow
  else ([], false)

/-! ## The per-match loop of `ParseTreeSitterFile` -/

/-- `filepath.Ext`: the suffix of the final path element starting at its last
    dot, or empty if there is none. -/
def goFilepathExt (path : GoStr) : GoStr :=
  let seg := path.reverse.takeWhile (fun c => c ≠ '/')
  let upto := seg.takeWhile (fun c => c ≠ '.')
  if upto.length = seg.length then [] else (upto ++ ['.']).reverse

/-- A query capture: its capture name and the captured node together with the
    node's ancestor chain (nearest first), standing for its tree position. -/
structure TSCapture where
  name : GoStr
  node : TSNode
  ancestors : List TSNode

/-- A query-cursor match: its capture list. -/
structure TSQueryMatch where
  captures : List TSCapture

/-- `FoundPrompt` (output fields; the matched-signal diagnostic fields, which
    no claim inspects, are not modelled since the embedded classifier returns
    only the decision). -/
structure FoundPrompt where
  Filepath : GoStr
  Line : Nat
  Content : GoStr
  IsMultiLine : Bool
deriving DecidableEq

/-- The capture scan at the head of the match loop: a capture whose node
    type mentions "comment" aborts the whole match; a `string_node` capture
    of string-like type becomes the current string node (last one wins). -/
def findStringNodeCapture :
    List TSCapture → Option (TSNode × List TSNode) → Option (TSNode × List TSNode)
  | [], acc => acc
  | c :: rest, acc =>
    if goContainsSub c.node.typ (gs "comment") = true then none
    else if c.name = gs "string_node" ∧
        (goContainsSub c.node.typ (gs "string") = true ∨ c.node.typ = gs "template_string" ∨
         c.node.typ = gs "string_fragment") then
      findStringNodeCapture rest (some (c.node, c.ancestors))
    else findStringNodeCapture rest acc

/-- Is this string node a text fragment whose direct parent is a template
    node (the suppression test of the loop)? -/
def suppressedFragment (sn : TSNode) (anc : List TSNode) : Prop :=
  sn.typ = gs "string_fragment" ∧ (anc.head?.map TSNode.typ) = some (gs "template_string")

instance (sn : TSNode) (anc : List TSNode) : Decidable (suppressedFragment sn anc) := by
  unfold suppressedFragment; infer_instance

/-- The match loop of `ParseTreeSitterFile` (revision with context
    resolution): fragment suppression, node-identity deduplication
    (`processedNodeIDs`, modelled as the list of already-seen identities),
    context resolution, decoding, classification.  Each emitted prompt is
    paired with the structural identity of the literal it came from, so that
    the deduplication claims can speak about identities; the scanner's own
    result list is the second projection (`parseTreeSitterFile`). -/
def parseTreeSitterLoop (opts : ScanOptions) (filePath : GoStr) (lang : GoStr) :
    List TSQueryMatch → List Nat → List (Nat × FoundPrompt)
  | [], _ => []
  | m :: ms, processed =>
    match findStringNodeCapture m.captures none with
    | none => parseTreeSitterLoop opts filePath lang ms processed
    | some (sn, anc) =>
      if suppressedFragment sn anc then
        parseTreeSitterLoop opts filePath lang ms processed
      else if sn.id ∈ processed then
        parseTreeSitterLoop opts filePath lang ms processed
      else
        let ctx3 := determineContextAroundNode sn anc lang
        let dec := decodeTS lang sn
        let actualContent := dec.1
        let linesInContent := countNewlines actualContent + 1
        let fp : FoundPrompt :=
          { Filepath := filePath, Line := sn.startRow + 1, Content := actualContent,
            IsMultiLine := dec.2 || decide (linesInContent > 1) }
        let pctx : PromptContext :=
          { Text := actualContent, VariableName := ctx3.1,
            IsMultiLineExplicit := dec.2, LinesInContent := linesInContent,
            FileExtension := goFilepathExt filePath,
            InvocationFunctionName := ctx3.2.1, InvocationReceiverName := ctx3.2.2 }
        (if isPotentialPrompt opts pctx then [(sn.id, fp)] else []) ++
          parseTreeSitterLoop opts filePath lang ms (sn.id :: processed)

/-- `ParseTreeSitterFile`, from the query matches on: the emitted prompts in
    source order. -/
def parseTreeSitterFile (opts : ScanOptions) (filePath lang : GoStr)
    (ms : List TSQueryMatch) : List FoundPrompt :=
  (parseTreeSitterLoop opts filePath lang ms []).map (fun e => e.2)

/-! ## Deduplication and suppression invariants of the match loop -/

/-- Loop invariant: the emitted identities are pairwise distinct and disjoint
    from the already-processed set. -/
theorem parseTreeSitterLoop_ids (opts : ScanOptions) (filePath lang : GoStr) :
    ∀ (ms : List TSQueryMatch) (processed : List Nat),
      ((parseTreeSitterLoop opts filePath lang ms processed).map Prod.fst).Nodup ∧
      ∀ i ∈ (parseTreeSitterLoop opts filePath lang ms processed).map Prod.fst,
        i ∉ processed := by
  intro ms
  induction ms with
  | nil => intro processed; simp [parseTreeSitterLoop]
  | cons m ms ih =>
    intro processed
    rw [parseTreeSitterLoop]
    cases hfind : findStringNodeCapture m.captures none with
    | none => exact ih processed
    | some snanc =>
      obtain ⟨sn, anc⟩ := snanc
      by_cases hsup : suppressedFragment sn anc
      · simp only [if_pos hsup]
        exact ih processed
      · simp only [if_neg hsup]
        by_cases hmem : sn.id ∈ processed
        · simp only [if_pos hmem]
          exact ih processed
        · simp only [if_neg hmem]
          have ih' := ih (sn.id :: processed)
          by_cases hacc : isPotentialPrompt opts
              { Text := (decodeTS lang sn).1,
                VariableName := (determineContextAroundNode sn anc lang).1,
                IsMultiLineExplicit := (decodeTS lang sn).2,
                LinesInContent := countNewlines (decodeTS lang sn).1 + 1,
                FileExtension := goFilepathExt filePath,
                InvocationFunctionName := (determineContextAroundNode sn anc lang).2.1,
                InvocationReceiverName := (determineContextAroundNode sn anc lang).2.2 } = true
          · simp only [hacc, if_true, List.cons_append, List.nil_append, List.map_cons]
            constructor
            · refine List.nodup_cons.mpr ⟨?_, ih'.1⟩
              intro hc
              exact ih'.2 sn.id hc (List.mem_cons_self sn.id processed)
            · intro i hi
              rcases List.mem_cons.mp hi with hi | hi
              · exact hi ▸ hmem
              · intro hip
                exact ih'.2 i hi (List.mem_cons_of_mem sn.id hip)
          · simp only [Bool.not_eq_true] at hacc
            simp only [hacc, Bool.false_eq_true, if_false, List.nil_append]
            refine ⟨ih'.1, fun i hi hip => ih'.2 i hi (List.mem_cons_of_mem sn.id hip)⟩

/-- C6 -/
theorem ts_dedup_invariant (opts : ScanOptions) (filePath lang : GoStr)
    (ms : List TSQueryMatch) :
    ((parseTreeSitterLoop opts filePath lang ms []).map Prod.fst).Nodup :=
  (parseTreeSitterLoop_ids opts filePath lang ms []).1

/-- C8 -/
theorem ts_fragment_suppressed (opts : ScanOptions) (filePath lang : GoStr) :
    ∀ (ms : List TSQueryMatch) (processed : List Nat),
      ∀ e ∈ parseTreeSitterLoop opts filePath lang ms processed,
        ∃ m ∈ ms, ∃ sn anc,
          findStringNodeCapture m.captures none = some (sn, anc) ∧
          e.1 = sn.id ∧ ¬ suppressedFragment sn anc := by
  intro ms
  induction ms with
  | nil => intro processed e he; simp [parseTreeSitterLoop] at he
  | cons m ms ih =>
    intro processed e he
    rw [parseTreeSitterLoop] at he
    cases hfind : findStringNodeCapture m.captures none with
    | none =>
      rw [hfind] at he
      rcases ih processed e he with ⟨m', hm', rest⟩
      exact ⟨m', List.mem_cons_of_mem m hm', rest⟩
    | some snanc =>
      obtain ⟨sn, anc⟩ := snanc
      rw [hfind] at he
      dsimp only at he
      by_cases hsup : suppressedFragment sn anc
      · rw [if_pos hsup] at he
        rcases ih processed e he with ⟨m', hm', rest⟩
        exact ⟨m', List.mem_cons_of_mem m hm', rest⟩
      · rw [if_neg hsup] at he
        by_cases hmem : sn.id ∈ processed
        · rw [if_pos hmem] at he
          rcases ih processed e he with ⟨m', hm', rest⟩
          exact ⟨m', List.mem_cons_of_mem m hm', rest⟩
        · rw [if_neg hmem] at he
          rcases List.mem_append.mp he with hin | hin
          · by_cases hacc : isPotentialPrompt opts
                { Text := (decodeTS lang sn).1,
                  VariableName := (determineContextAroundNode sn anc lang).1,
                  IsMultiLineExplicit := (decodeTS lang sn).2,
                  LinesInContent := countNewlines (decodeTS lang sn).1 + 1,
                  FileExtension := goFilepathExt filePath,
                  InvocationFunctionName := (determineContextAroundNode sn anc lang).2.1,
                  InvocationReceiverName := (determineContextAroundNode sn anc lang).2.2 } = true
            · rw [if_pos hacc] at hin
              rcases List.mem_singleton.mp hin with rfl
              exact ⟨m, List.mem_cons_self m ms, sn, anc, hfind, rfl, hsup⟩
            · simp only [Bool.not_eq_true] at hacc
              rw [hacc] at hin
              simp at hin
          · rcases ih (sn.id :: processed) e hin with ⟨m', hm', rest⟩
            exact ⟨m', List.mem_cons_of_mem m hm', rest⟩

/-- In either mode, an accepted context has non-empty text. -/
theorem isPotentialPrompt_text_ne {opts : ScanOptions} {ctx : PromptContext}
    (h : isPotentialPrompt opts ctx = true) : ctx.Text ≠ [] := by
  intro he
  have htrim := isPotentialPrompt_trim_ne h
  rw [he] at htrim
  simp [goTrimSpace] at htrim

/-- C9 -/
theorem ts_content_nonempty (opts : ScanOptions) (filePath lang : GoStr) :
    ∀ (ms : List TSQueryMatch) (processed : List Nat),
      ∀ e ∈ parseTreeSitterLoop opts filePath lang ms processed,
        e.2.Content ≠ [] := by
  intro ms
  induction ms with
  | nil => intro processed e he; simp [parseTreeSitterLoop] at he
  | cons m ms ih =>
    intro processed e he
    rw [parseTreeSitterLoop] at he
    cases hfind : findStringNodeCapture m.captures none with
    | none =>
      rw [hfind] at he
      exact ih processed e he
    | some snanc =>
      obtain ⟨sn, anc⟩ := snanc
      rw [hfind] at he
      dsimp only at he
      by_cases hsup : suppressedFragment sn anc
      · rw [if_pos hsup] at he
        exact ih processed e he
      · rw [if_neg hsup] at he
        by_cases hmem : sn.id ∈ processed
        · rw [if_pos hmem] at he
          exact ih processed e he
        · rw [if_neg hmem] at he
          rcases List.mem_append.mp he with hin | hin
          · by_cases hacc : isPotentialPrompt opts
                { Text := (decodeTS lang sn).1,
                  VariableName := (determineContextAroundNode sn anc lang).1,
                  IsMultiLineExplicit := (decodeTS lang sn).2,
                  LinesInContent := countNewlines (decodeTS lang sn).1 + 1,
                  FileExtension := goFilepathExt filePath,
                  InvocationFunctionName := (determineContextAroundNode sn anc lang).2.1,
                  InvocationReceiverName := (determineContextAroundNode sn anc lang).2.2 } = true
            · rw [if_pos hacc] at hin
              rcases List.mem_singleton.mp hin with rfl
              exact isPotentialPrompt_text_ne hacc
            · simp only [Bool.not_eq_true] at hacc
              rw [hacc] at hin
              simp at hin
          · exact ih (sn.id :: processed) e hin

/-- Strict-mode demo configuration for the loop witnesses. -/
def tsDemoOpts : ScanOptions :=
  { MinLength := defaultMinLength, VariableKeywords := [],
    ContentKeywords := [gs "act as"], ScanConfigs := false,
    Greedy := false, UseGitignore := false, Verbose := false,
    varKeywordFind := fun _ => [], compiledPlaceholders := [] }

/-- Demo path. -/
def tsDemoPath : GoStr := gs "demo.py"

/-- A Python string node whose decoded text starts with a content keyword. -/
def tsDemoNode : TSNode :=
  .mk 1 (gs "string") (gs "\"act as a helpful travel planner\"") 0 0 []

/-- A query match capturing that node. -/
def tsDemoMatch : TSQueryMatch :=
  { captures := [{ name := gs "string_node", node := tsDemoNode, ancestors := [] }] }

/-- The prompt the loop emits for the demo match. -/
def tsDemoFp : FoundPrompt :=
  { Filepath := tsDemoPath, Line := 1,
    Content := gs "act as a helpful travel planner", IsMultiLine := false }

/-- Witness for C8. -/
theorem ts_fragment_suppressed_witness :
    ∃ m ∈ [tsDemoMatch], ∃ sn anc,
      findStringNodeCapture m.captures none = some (sn, anc) ∧
      (1, tsDemoFp).1 = sn.id ∧ ¬ suppressedFragment sn anc :=
  ts_fragment_suppressed tsDemoOpts tsDemoPath (gs "python") [tsDemoMatch] []
    (1, tsDemoFp) (by decide)

/-- Witness for C9. -/
theorem ts_content_nonempty_witness :
    ((1, tsDemoFp) ∈ parseTreeSitterLoop tsDemoOpts tsDemoPath (gs "python") [tsDemoMatch] []) ∧
    tsDemoFp.Content ≠ [] :=
  ⟨by decide,
   ts_content_nonempty tsDemoOpts tsDemoPath (gs "python") [tsDemoMatch] []
     (1, tsDemoFp) (by decide)⟩

/-! ## Bounds and stability of the context walk -/

/-- The head of a non-trivial take. -/
theorem head?_take {α : Type} (l : List α) (n : Nat) :
    (l.take (n + 1)).head? = l.head? := by
  cases l <;> rfl

/-- The walk with `fuel` iterations reads at most `fuel + 1` ancestors (each
    iteration consumes one ancestor and the call rule peeks at the next). -/
theorem dcAux_take (sid : Nat) (lang : GoStr) :
    ∀ (fuel : Nat) (cur : TSNode) (anc : List TSNode) (v f r : GoStr),
      dcAux sid lang fuel cur anc v f r = dcAux sid lang fuel cur (anc.take (fuel + 1)) v f r := by
  intro fuel
  induction fuel with
  | zero => intro cur anc v f r; rfl
  | succ n ih =>
    intro cur anc v f r
    cases anc with
    | nil => rfl
    | cons p rest =>
      cases rest with
      | nil => rfl
      | cons c rest2 =>
        simp only [List.take_succ_cons, dcAux, List.head?_cons]
        rw [ih p (c :: rest2)]
        simp only [List.take_succ_cons]

/-- Once the current node's identity differs from the string node's (and no
    later ancestor shares it), the variable-name accumulator is returned
    unchanged by the rest of the walk. -/
theorem dcAux_var_stable (sid : Nat) (lang : GoStr) :
    ∀ (fuel : Nat) (cur : TSNode) (anc : List TSNode) (v f r : GoStr),
      cur.id ≠ sid → (∀ a ∈ anc, a.id ≠ sid) →
      (dcAux sid lang fuel cur anc v f r).1 = v := by
  intro fuel
  induction fuel with
  | zero => intro cur anc v f r _ _; rfl
  | succ n ih =>
    intro cur anc v f r hcur hanc
    cases anc with
    | nil => rfl
    | cons p rest =>
      have hp : p.id ≠ sid := hanc p (List.mem_cons_self p rest)
      have hrest : ∀ a ∈ rest, a.id ≠ sid := fun a ha => hanc a (List.mem_cons_of_mem p ha)
      simp only [dcAux, if_neg hcur]
      split
      · split
        · cases rest.head? with
          | none => exact ih p rest v f r hp hrest
          | some callLike =>
            dsimp only
            split
            · rfl
            · exact ih p rest v f r hp hrest
        · exact ih p rest v f r hp hrest
      · split
        · cases hchild : childByFieldName p (gs "argument") with
          | none => exact ih p rest v f r hp hrest
          | some a =>
            dsimp only
            split
            · rfl
            · exact ih p rest v f r hp hrest
        · split
          · split
            · rfl
            · exact ih p rest v f r hp hrest
          · exact ih p rest v f r hp hrest

/-- A changed variable capture pins the parent's node type to one of the four
    binding constructs. -/
theorem varCapture_typ {p sn : TSNode} {old : GoStr}
    (h : varCapture p sn old ≠ old) :
    p.typ = gs "assignment_expression" ∨ p.typ = gs "variable_declarator" ∨
    p.typ = gs "assignment" ∨ p.typ = gs "pair" := by
  by_contra hc
  push_neg at hc
  obtain ⟨h1, h2, h3, h4⟩ := hc
  rw [varCapture, if_neg h1, if_neg h2, if_neg h3, if_neg h4] at h
  exact h rfl

/-- C7 amended -/
theorem context_walk_amended :
    (∀ (sn : TSNode) (anc : List TSNode) (lang : GoStr),
      determineContextAroundNode sn anc lang =
        determineContextAroundNode sn (anc.take 5) lang) ∧
    (∀ (sn p : TSNode) (rest : List TSNode) (lang : GoStr),
      p.id ≠ sn.id → (∀ a ∈ rest, a.id ≠ sn.id) →
      varCapture p sn [] ≠ [] →
      (determineContextAroundNode sn (p :: rest) lang).1 = varCapture p sn []) := by
  constructor
  · intro sn anc lang
    exact dcAux_take sn.id lang 4 sn anc [] [] []
  · intro sn p rest lang hp hrest hvar
    rcases varCapture_typ hvar with ht | ht | ht | ht <;>
    · rw [determineContextAroundNode]
      simp only [dcAux, ht, eq_self_iff_true, if_true]
      rw [if_neg (by decide), if_neg (by decide), if_neg (by decide)]
      exact dcAux_var_stable sn.id lang 3 p rest (varCapture p sn []) [] [] hp hrest

/-- The string literal of `f(x = "s")` (JavaScript). -/
def c7sNode : TSNode := .mk 1 (gs "string") (gs "\"s\"") 0 0 []

/-- The identifier `x`. -/
def c7xIdent : TSNode := .mk 2 (gs "identifier") (gs "x") 0 0 []

/-- The assignment `x = "s"`. -/
def c7assign : TSNode :=
  .mk 3 (gs "assignment_expression") (gs "x = \"s\"") 0 0
    [(gs "left", c7xIdent), (gs "right", c7sNode)]

/-- The identifier `f`. -/
def c7fIdent : TSNode := .mk 6 (gs "identifier") (gs "f") 0 0 []

/-- The argument list of `f(x = "s")`. -/
def c7args : TSNode := .mk 4 (gs "arguments") (gs "(x = \"s\")") 0 0 [([], c7assign)]

/-- The call `f(x = "s")`. -/
def c7call : TSNode :=
  .mk 5 (gs "call_expression") (gs "f(x = \"s\")") 0 0
    [(gs "function", c7fIdent), (gs "arguments", c7args)]

/-- C7 counterexample. -/
theorem context_walk_counterexample :
    determineContextAroundNode c7sNode [c7assign, c7args, c7call] (gs "javascript") =
      (gs "x", gs "f", []) ∧
    (gs "x" : GoStr) ≠ [] ∧ (gs "f" : GoStr) ≠ [] := by
  refine ⟨by decide, by decide, by decide⟩

/-- Witness for the amended C7. -/
theorem context_walk_amended_witness :
    c7assign.id ≠ c7sNode.id ∧ varCapture c7assign c7sNode [] = gs "x" ∧
    (determineContextAroundNode c7sNode [c7assign, c7args, c7call] (gs "javascript")).1 =
      varCapture c7assign c7sNode [] := by
  refine ⟨by decide, by decide, ?_⟩
  exact context_walk_amended.2 c7sNode c7assign [c7args, c7call] (gs "javascript")
    (by decide) (by decide) (by decide)

/-! ## File dispatch (`scanner/scanner.go`, `processFile`) -/

/-- `filepath.Base` (for non-empty paths without trailing separators, the
    final path element; edge cases follow Go's conventions). -/
def goFilepathBase (path : GoStr) : GoStr :=
  if path.isEmpty then gs "."
  else
    let p := path.reverse.dropWhile (fun c => c = '/')
    if p.isEmpty then gs "/" else (p.takeWhile (fun c => c ≠ '/')).reverse

/-- The result pair of a Go parser call: the prompt list and the error slot. -/
abbrev ParseResult := List FoundPrompt × Option GoStr

/-- `processFile`: extension and name computed first, the read content is
    given as `contentBytes`; an empty file returns `(nil, nil)` before any
    dispatch; otherwise the file goes to the per-language parser, or (when
    `ScanConfigs` is set) to the config parsers, or is skipped.  The language
    and config parsers are taken as parameters, standing for
    `ParseGoFile`, `ParseTreeSitterFile`, `ParseEnvFile`, `ParseJSONFile`,
    `ParseYAMLFile` and `ParseTOMLFile`. -/
def processFile
    (parseGoFile : GoStr → List (Fin 256) → ParseResult)
    (parseTreeSitterFileF : GoStr → List (Fin 256) → GoStr → ParseResult)
    (parseEnvFile parseJSONFile parseYAMLFile parseTOMLFile :
      GoStr → List (Fin 256) → ParseResult)
    (opts : ScanOptions) (filePath : GoStr) (contentBytes : List (Fin 256)) :
    ParseResult :=
  let ext := goToLower (goFilepathExt filePath)
  let fileName := goToLower (goFilepathBase filePath)
  if contentBytes.isEmpty then ([], none)
  else if ext = gs ".go" then parseGoFile filePath contentBytes
  else if ext = gs ".py" then parseTreeSitterFileF filePath contentBytes (gs "python")
  else if ext = gs ".js" ∨ ext = gs ".jsx" then
    parseTreeSitterFileF filePath contentBytes (gs "javascript")
  else if ext = gs ".ts" ∨ ext = gs ".tsx" then
    parseTreeSitterFileF filePath contentBytes (gs "typescript")
  else if opts.ScanConfigs then
    if goStartsWith fileName (gs ".env") then parseEnvFile filePath contentBytes
    else if ext = gs ".json" then parseJSONFile filePath contentBytes
    else if ext = gs ".yaml" ∨ ext = gs ".yml" then parseYAMLFile filePath contentBytes
    else if ext = gs ".toml" then parseTOMLFile filePath contentBytes
    else ([], none)
  else ([], none)

/-- C10 -/
theorem processFile_empty_content
    (parseGoFile : GoStr → List (Fin 256) → ParseResult)
    (parseTreeSitterFileF : GoStr → List (Fin 256) → GoStr → ParseResult)
    (parseEnvFile parseJSONFile parseYAMLFile parseTOMLFile :
      GoStr → List (Fin 256) → ParseResult)
    (opts : ScanOptions) (filePath : GoStr) :
    processFile parseGoFile parseTreeSitterFileF parseEnvFile parseJSONFile
      parseYAMLFile parseTOMLFile opts filePath [] = ([], none) := rfl
